import Mathlib

/-!
Shallow embedding of the Obsidian Vault Linter normalization core.

Content strings are modelled as `List Char`.  JavaScript regular-expression
driven rewrites are modelled as explicit scans over the character list,
faithful to leftmost, greedy, non-overlapping global matching.  The current
date produced by `new Date()` inside the frontmatter generator is passed in
explicitly as a `today` argument, so every operation is a pure function.
-/

set_option maxRecDepth 4000

/-- The JavaScript whitespace class used by `trim`, `trimStart` and `\s`. -/
def isJsWhitespace (c : Char) : Bool :=
  c == ' ' || c == '\t' || c == '\n' || c == '\r' || c == '\x0b' || c == '\x0c' ||
  c == '\u00A0' || c == '\u1680' || ('\u2000' ≤ c && c ≤ '\u200A') ||
  c == '\u2028' || c == '\u2029' || c == '\u202F' || c == '\u205F' ||
  c == '\u3000' || c == '\uFEFF'

/-- JavaScript `String.prototype.trimStart`. -/
def trimStart (l : List Char) : List Char := l.dropWhile isJsWhitespace

/-- JavaScript removal of trailing whitespace (`trimEnd`, also `replace(/\s+$/,'')`). -/
def trimEnd (l : List Char) : List Char := (l.reverse.dropWhile isJsWhitespace).reverse

/-- JavaScript `String.prototype.trim`. -/
def trim (l : List Char) : List Char := trimEnd (trimStart l)

/-- `headMatches pat l` is true iff `l` begins with `pat` (JS `startsWith`). -/
def headMatches : List Char → List Char → Bool
  | [], _ => true
  | _ :: _, [] => false
  | a :: as, b :: bs => a == b && headMatches as bs

/-- `tailMatches pat l` is true iff `l` ends with `pat` (JS `endsWith`). -/
def tailMatches (pat l : List Char) : Bool := headMatches pat.reverse l.reverse

/-- JS `indexOf` for a substring: index of the first occurrence, if any. -/
def indexOfSub (pat : List Char) : List Char → Option Nat
  | [] => if headMatches pat [] then some 0 else none
  | c :: rest =>
      if headMatches pat (c :: rest) then some 0
      else (indexOfSub pat rest).map (· + 1)

/-- JS `String.prototype.split` on the single characters selected by `p`
(empty segments are kept, as in JavaScript). -/
def splitOnP (p : Char → Bool) : List Char → List (List Char)
  | [] => [[]]
  | c :: rest =>
      match splitOnP p rest with
      | [] => [[]]
      | s :: ss => if p c then [] :: s :: ss else (c :: s) :: ss

/-- Decimal rendering of a count, as JS template interpolation does. -/
def natToChars (n : Nat) : List Char := (Nat.repr n).data

/-- `tagFormat` configuration choices. -/
inductive TagFormat where
  | lowercase
  | uppercase
  | camelCase
  | none
  deriving DecidableEq

/-- `wikilinkStyle` configuration choices. -/
inductive WikilinkStyle where
  | shortest
  | relative
  | absolute
  deriving DecidableEq

/-- The plugin settings record (src/settings.ts, `VaultLinterSettings`). -/
structure VaultLinterSettings where
  enforceFrontmatter : Bool
  frontmatterTemplate : List Char
  normalizeFormatting : Bool
  endWithNewline : Bool
  removeMultipleBlankLines : Bool
  enforceTagRules : Bool
  tagFormat : TagFormat
  safeWikilinkInsertion : Bool
  wikilinkStyle : WikilinkStyle

namespace FrontmatterEnforcer

/-- `hasFrontmatter` (src/engine/frontmatter.ts): content, after stripping
leading whitespace, starts with `---`. -/
def hasFrontmatter (content : List Char) : Bool :=
  headMatches "---".data (trimStart content)

/-- `extractFrontmatter` (src/engine/frontmatter.ts): locate the opening
`---`, then the next newline immediately followed by `---`. -/
def extractFrontmatter (content : List Char) : Option (List Char × List Char) :=
  let trimmed := trimStart content
  if !headMatches "---".data trimmed then Option.none
  else
    let afterFirst := trimmed.drop 3
    match indexOfSub "\n---".data afterFirst with
    | Option.none => Option.none
    | some i => some (afterFirst.take i, afterFirst.drop (i + 4))

/-- `title.replace(/\.md$/, '')`. -/
def stripDotMd (l : List Char) : List Char :=
  if tailMatches ".md".data l then l.take (l.length - 3) else l

/-- Is `c` in `[a-z0-9]`.  Used by `generateId`. -/
def isLowerAlnum (c : Char) : Bool :=
  ('a' ≤ c && c ≤ 'z') || ('0' ≤ c && c ≤ '9')

/-- Fuel-indexed scan for `replace(/[^a-z0-9]+/g, '-')`: each maximal run of
characters outside `[a-z0-9]` becomes a single hyphen. -/
def hyphenGo : Nat → List Char → List Char
  | _, [] => []
  | 0, l => l
  | n + 1, c :: rest =>
      if isLowerAlnum c then c :: hyphenGo n rest
      else '-' :: hyphenGo n (rest.dropWhile (fun d => !isLowerAlnum d))

/-- `generateId` (src/engine/frontmatter.ts): lowercase, hyphenate runs of
special characters, strip leading/trailing hyphens. -/
def generateId (title : List Char) : List Char :=
  let lowered := title.map Char.toLower
  let hyphenated := hyphenGo lowered.length lowered
  ((hyphenated.dropWhile (fun c => c == '-')).reverse.dropWhile (fun c => c == '-')).reverse

/-- Fuel-indexed global literal replace (`replace(/pat/g, rep)` for the
literal placeholder patterns, which contain no special characters). -/
def replaceAllGo (pat rep : List Char) : Nat → List Char → List Char
  | _, [] => []
  | 0, l => l
  | n + 1, c :: rest =>
      if headMatches pat (c :: rest) && !pat.isEmpty then
        rep ++ replaceAllGo pat rep n ((c :: rest).drop pat.length)
      else c :: replaceAllGo pat rep n rest

/-- Global literal replace-all over a content list. -/
def replaceAll (pat rep l : List Char) : List Char := replaceAllGo pat rep l.length l

/-- The placeholder substitutions of `generateFrontmatter`: `\x7b\x7bid\x7d\x7d`,
`\x7b\x7btitle\x7d\x7d` and `\x7b\x7bdate\x7d\x7d` replaced in the template, in that order. -/
def substitutedTemplate (s : VaultLinterSettings) (today fileName : List Char) : List Char :=
  let title := stripDotMd fileName
  let idStr := generateId title
  let f1 := replaceAll "\x7b\x7bid\x7d\x7d".data idStr s.frontmatterTemplate
  let f2 := replaceAll "\x7b\x7btitle\x7d\x7d".data title f1
  replaceAll "\x7b\x7bdate\x7d\x7d".data today f2

/-- `generateFrontmatter` (src/engine/frontmatter.ts).  The current date is
passed in as `today` (the code computes it from `new Date()`). -/
def generateFrontmatter (s : VaultLinterSettings) (today fileName : List Char) : List Char :=
  if !s.enforceFrontmatter then []
  else
    let f3 := substitutedTemplate s today fileName
    let f4 := if !headMatches "---".data f3 then "---\n".data ++ f3 else f3
    if !tailMatches "---".data f4 then f4 ++ "\n---".data else f4

/-- `enforce` (src/engine/frontmatter.ts): prepend generated frontmatter and
a blank line when enforcement is on and the content has none. -/
def enforce (s : VaultLinterSettings) (today content fileName : List Char) : List Char :=
  if !s.enforceFrontmatter then content
  else if hasFrontmatter content then content
  else generateFrontmatter s today fileName ++ '\n' :: '\n' :: content

end FrontmatterEnforcer

namespace FormattingNormalizer

/-- `normalizeLineEndings`: `replace(/\r\n/g, '\n')` — one simultaneous
left-to-right pass replacing each CRLF pair. -/
def normalizeLineEndings : List Char → List Char
  | '\r' :: '\n' :: rest => '\n' :: normalizeLineEndings rest
  | c :: rest => c :: normalizeLineEndings rest
  | [] => []

/-- Fuel-indexed scan for `replace(/\n{3,}/g, '\n\n')`: each maximal run of
three or more newlines becomes exactly two. -/
def collapseGo : Nat → List Char → List Char
  | _, [] => []
  | 0, l => l
  | n + 1, '\n' :: rest =>
      let run := rest.takeWhile (fun c => c == '\n')
      let rest2 := rest.dropWhile (fun c => c == '\n')
      if 2 ≤ run.length then '\n' :: '\n' :: collapseGo n rest2
      else '\n' :: (run ++ collapseGo n rest2)
  | n + 1, c :: rest => c :: collapseGo n rest

/-- `removeMultipleBlankLines`, gated by its flag. -/
def removeMultipleBlankLines (s : VaultLinterSettings) (content : List Char) : List Char :=
  if !s.removeMultipleBlankLines then content else collapseGo content.length content

/-- `ensureTrailingNewline`, gated by its flag: strip all trailing
whitespace, then append exactly one newline. -/
def ensureTrailingNewline (s : VaultLinterSettings) (content : List Char) : List Char :=
  if !s.endWithNewline then content else trimEnd content ++ ['\n']

/-- Composed `normalize` (formattingNormalizer), gated by `normalizeFormatting`. -/
def normalize (s : VaultLinterSettings) (content : List Char) : List Char :=
  if !s.normalizeFormatting then content
  else ensureTrailingNewline s (removeMultipleBlankLines s (normalizeLineEndings content))

end FormattingNormalizer

namespace TagRules

/-- A character matched by the tag token class `[a-zA-Z0-9_\-\/]`. -/
def isTagChar (c : Char) : Bool :=
  ('a' ≤ c && c ≤ 'z') || ('A' ≤ c && c ≤ 'Z') || ('0' ≤ c && c ≤ '9') ||
  c == '_' || c == '-' || c == '/'

/-- A tag separator from `split(/[_\-\/]/)`. -/
def isTagSeparator (c : Char) : Bool := c == '_' || c == '-' || c == '/'

/-- One camelCase word: the first segment is fully lowercased, later
segments get an uppercased head and a lowercased remainder. -/
def camelWord (i : Nat) (w : List Char) : List Char :=
  if i = 0 then w.map Char.toLower
  else
    match w with
    | [] => []
    | c :: rest => Char.toUpper c :: rest.map Char.toLower

/-- `normalizeTag` (tagRules): apply the configured case transform. -/
def normalizeTag (s : VaultLinterSettings) (tag : List Char) : List Char :=
  if !s.enforceTagRules then tag
  else
    match s.tagFormat with
    | TagFormat.lowercase => tag.map Char.toLower
    | TagFormat.uppercase => tag.map Char.toUpper
    | TagFormat.camelCase =>
        (((splitOnP isTagSeparator tag).enum.map (fun p => camelWord p.1 p.2)).flatten)
    | TagFormat.none => tag

/-- Flush a pending tag run at the end of a scan state. -/
def tagFlush (f : List Char → List Char) : Option (List Char) → List Char
  | Option.none => []
  | some [] => ['#']
  | some run => '#' :: f run

/-- State-machine scan for `replace(/#([a-zA-Z0-9_\-\/]+)/g, ...)`: `cur` is
`some run` while inside a candidate tag token whose characters so far are
`run` (`some []` right after a `#`). -/
def tagScan (f : List Char → List Char) (cur : Option (List Char)) : List Char → List Char
  | [] => tagFlush f cur
  | c :: rest =>
      match cur with
      | some run =>
          if isTagChar c then tagScan f (some (run ++ [c])) rest
          else if c == '#' then tagFlush f (some run) ++ tagScan f (some []) rest
          else tagFlush f (some run) ++ c :: tagScan f Option.none rest
      | Option.none =>
          if c == '#' then tagScan f (some []) rest
          else c :: tagScan f Option.none rest

/-- `enforce` (tagRules): rewrite every inline tag token. -/
def enforce (s : VaultLinterSettings) (content : List Char) : List Char :=
  if !s.enforceTagRules then content
  else tagScan (normalizeTag s) Option.none content

end TagRules

namespace WikilinkInserter

/-- `linkPath.replace(/\.md$/, '')`. -/
def stripMdSuffixOnce (l : List Char) : List Char :=
  if tailMatches ".md".data l then l.take (l.length - 3) else l

/-- `normalizeWikilinkPath` (wikilinkInserter): split on `|` into path and
optional alias, apply the configured path style to the path alone, and
reassemble (JS truthiness drops an empty alias). -/
def normalizeWikilinkPath (s : VaultLinterSettings) (path : List Char) : List Char :=
  if !s.safeWikilinkInsertion then path
  else
    let parts := splitOnP (fun c => c == '|') path
    let linkPath := trim (parts.headD [])
    let aliasOpt := (parts.get? 1).map trim
    let linkPath2 :=
      match s.wikilinkStyle with
      | WikilinkStyle.shortest =>
          let seg := (splitOnP (fun c => c == '/') linkPath).getLastD []
          stripMdSuffixOnce (if seg.isEmpty then linkPath else seg)
      | WikilinkStyle.relative => linkPath
      | WikilinkStyle.absolute => linkPath
    match aliasOpt with
    | some a => if a.isEmpty then linkPath2 else linkPath2 ++ '|' :: a
    | Option.none => linkPath2

/-- Fuel-indexed scan for `replace(/\[\[([^\]]+)\]\]/g, ...)`: at a `[[`,
greedily take the non-`]` inner text; a match needs a nonempty inner text
followed by `]]`, otherwise the scan advances one character. -/
def wikiGo (f : List Char → List Char) : Nat → List Char → List Char
  | _, [] => []
  | 0, l => l
  | n + 1, '[' :: '[' :: rest =>
      let inner := rest.takeWhile (fun c => !(c == ']'))
      let after := rest.dropWhile (fun c => !(c == ']'))
      if inner.isEmpty then '[' :: wikiGo f n ('[' :: rest)
      else
        match after with
        | ']' :: ']' :: rest2 => '[' :: '[' :: (f inner ++ ']' :: ']' :: wikiGo f n rest2)
        | _ => '[' :: wikiGo f n ('[' :: rest)
  | n + 1, c :: rest => c :: wikiGo f n rest

/-- `normalize` (wikilinkInserter): rewrite every wikilink token. -/
def normalize (s : VaultLinterSettings) (content : List Char) : List Char :=
  if !s.safeWikilinkInsertion then content
  else wikiGo (normalizeWikilinkPath s) content.length content

end WikilinkInserter

namespace NormalizationPipeline

/-- `normalize` (src/engine/normalize.ts): frontmatter → formatting → tags
→ wikilinks, threading the output of each stage into the next. -/
def normalize (s : VaultLinterSettings) (today content fileName : List Char) : List Char :=
  WikilinkInserter.normalize s
    (TagRules.enforce s
      (FormattingNormalizer.normalize s
        (FrontmatterEnforcer.enforce s today content fileName)))

end NormalizationPipeline

/-- Change classification kinds (reporter). -/
inductive ChangeKind where
  | frontmatterAdded
  | frontmatterNormalized
  | formattingNormalized
  | tagsNormalized
  | wikilinksNormalized
  deriving DecidableEq, BEq

/-- One reported change. -/
structure Change where
  kind : ChangeKind
  description : List Char
  lineNumber : Option Nat

/-- One per-document change report. -/
structure ChangeReport where
  filePath : List Char
  fileName : List Char
  changes : List Change
  originalContent : List Char
  normalizedContent : List Char

/-- `reports.filter(r => r.changes.length > 0)`. -/
def changedReports (reports : List ChangeReport) : List ChangeReport :=
  reports.filter (fun r => decide (0 < r.changes.length))

/-- `reports.filter(r => r.changes.length === 0)`. -/
def unchangedReports (reports : List ChangeReport) : List ChangeReport :=
  reports.filter (fun r => decide (r.changes.length = 0))

/-- The kind labels used in rendered reports. -/
def changeKindName : ChangeKind → List Char
  | ChangeKind.frontmatterAdded => "frontmatter-added".data
  | ChangeKind.frontmatterNormalized => "frontmatter-normalized".data
  | ChangeKind.formattingNormalized => "formatting-normalized".data
  | ChangeKind.tagsNormalized => "tags-normalized".data
  | ChangeKind.wikilinksNormalized => "wikilinks-normalized".data

/-- Occurrences of kind `k` across all changes of the changed reports. -/
def kindTally (changed : List ChangeReport) (k : ChangeKind) : Nat :=
  (changed.map (fun r => (r.changes.filter (fun ch => ch.kind == k)).length)).sum

/-- The five kind labels in ascending lexicographic order: the tally map is
rendered `sort()`ed, and no label is a proper head of another, so sorting
the key-count pairs orders them by label. -/
def sortedKinds : List ChangeKind :=
  [ChangeKind.formattingNormalized, ChangeKind.frontmatterAdded,
   ChangeKind.frontmatterNormalized, ChangeKind.tagsNormalized,
   ChangeKind.wikilinksNormalized]

/-- The `## Summary of Changes` bullet lines: one per kind that occurred. -/
def vaultSummaryLines (changed : List ChangeReport) : List Char :=
  ((sortedKinds.filter (fun k => decide (0 < kindTally changed k))).map
    (fun k => "- **".data ++ changeKindName k ++ "**: ".data ++
      natToChars (kindTally changed k) ++ " file(s)\n".data)).flatten

/-- One `### name` detail section of the vault report. -/
def vaultFileSection (r : ChangeReport) : List Char :=
  "### ".data ++ r.fileName ++ "\n\n**Path**: `".data ++ r.filePath ++
  "`\n\n**Changes**:\n".data ++
  ((r.changes.map (fun ch => "- ".data ++ ch.description ++ "\n".data)).flatten) ++
  "\n".data

/-- The header and counts of the vault report.  The timestamp is passed in
as `ts` (the code computes it from `new Date()`). -/
def vaultHeader (ts : List Char) (reports : List ChangeReport) : List Char :=
  "# Vault Linting Report\n\n**Generated**: ".data ++ ts ++
  "\n**Total Files Processed**: ".data ++ natToChars reports.length ++
  "\n\n**Files with Changes**: ".data ++ natToChars (changedReports reports).length ++
  "\n**Files Already Conforming**: ".data ++ natToChars (unchangedReports reports).length ++
  "\n\n".data

/-- The summary-plus-details block, emitted only when some file changed. -/
def vaultChangedBlock (reports : List ChangeReport) : List Char :=
  if 0 < (changedReports reports).length then
    "## Summary of Changes\n\n".data ++ vaultSummaryLines (changedReports reports) ++
    "\n## Files Modified\n\n".data ++
    ((changedReports reports).map vaultFileSection).flatten
  else []

/-- The flat `## Files Already Conforming` path listing. -/
def vaultUnchangedBlock (reports : List ChangeReport) : List Char :=
  "## Files Already Conforming\n\n".data ++
  ((unchangedReports reports).map (fun r => "- `".data ++ r.filePath ++ "`\n".data)).flatten ++
  "\n".data

/-- `formatVaultReportAsMarkdown` (report module): header, counts, summary,
per-document details, and — only when `0 < unchanged ≤ 20` — the flat
listing of unchanged paths. -/
def formatVaultReportAsMarkdown (ts : List Char) (reports : List ChangeReport) : List Char :=
  vaultHeader ts reports ++ vaultChangedBlock reports ++
  (if 0 < (unchangedReports reports).length ∧ (unchangedReports reports).length ≤ 20 then
    vaultUnchangedBlock reports
  else [])

/-- The vault report with the unchanged-paths listing omitted, used to state
that the listing is not rendered for large unchanged counts. -/
def vaultReportWithoutUnchangedList (ts : List Char) (reports : List ChangeReport) : List Char :=
  vaultHeader ts reports ++ vaultChangedBlock reports

/-- Spec-side shortest-path transform: the final `/`-segment when it is
nonempty (otherwise the path is kept whole), with a trailing `.md` stripped. -/
def wikilinkShortestSpec (linkPath : List Char) : List Char :=
  let seg := (splitOnP (fun c => c == '/') linkPath).getLastD []
  WikilinkInserter.stripMdSuffixOnce (if seg.isEmpty then linkPath else seg)

/-- Spec-side wikilink path normalization, following the amended claim's
words: the link path is the trimmed text before the first `|`; the alias is
the trimmed text between the first and the second `|` (text after a second
`|` is dropped); the configured style applies to the link path alone; the
result carries a `|alias` part only when a pipe was present and the trimmed
alias is nonempty. -/
def normalizeWikilinkPathSpec (style : WikilinkStyle) (path : List Char) : List Char :=
  let linkPath := trim (path.takeWhile (fun c => !(c == '|')))
  let aliasText := trim (((path.dropWhile (fun c => !(c == '|'))).drop 1).takeWhile (fun c => !(c == '|')))
  let lp :=
    match style with
    | WikilinkStyle.shortest => wikilinkShortestSpec linkPath
    | WikilinkStyle.relative => linkPath
    | WikilinkStyle.absolute => linkPath
  if path.any (fun c => c == '|') && !aliasText.isEmpty then lp ++ '|' :: aliasText else lp

/-- All rule flags off. -/
def settingsAllOff : VaultLinterSettings :=
  ⟨false, [], false, false, false, false, TagFormat.none, false, WikilinkStyle.shortest⟩

/-- Only the formatting rules on. -/
def settingsFormatOnly : VaultLinterSettings :=
  ⟨false, [], true, true, true, false, TagFormat.none, false, WikilinkStyle.shortest⟩

/-- Tag rules on with the camelCase format. -/
def settingsCamel : VaultLinterSettings :=
  ⟨false, [], false, false, false, true, TagFormat.camelCase, false, WikilinkStyle.shortest⟩

/-- Safe wikilink insertion on with the shortest style. -/
def settingsWiki : VaultLinterSettings :=
  ⟨false, [], false, false, false, false, TagFormat.none, true, WikilinkStyle.shortest⟩

/-- Frontmatter enforcement on with an empty template. -/
def settingsFm : VaultLinterSettings :=
  ⟨true, [], false, false, false, false, TagFormat.none, false, WikilinkStyle.shortest⟩

/-- Frontmatter enforcement on with a template holding a date placeholder. -/
def settingsFmDate : VaultLinterSettings :=
  ⟨true, "date: \x7b\x7bdate\x7d\x7d".data, false, false, false, false, TagFormat.none, false,
    WikilinkStyle.shortest⟩

/-- A report with no changes, used to exercise the unchanged-count gate. -/
def sampleUnchangedReport : ChangeReport :=
  ⟨"a.md".data, "a.md".data, [], [], []⟩

/-- Twenty-one unchanged reports. -/
def manyUnchanged : List ChangeReport := List.replicate 21 sampleUnchangedReport

theorem takeWhile_append_of_all {p : Char → Bool} {xs ys : List Char}
    (h : ∀ x ∈ xs, p x = true) : (xs ++ ys).takeWhile p = xs ++ ys.takeWhile p := by
  induction xs with
  | nil => simp
  | cons x xs ih =>
    have hx : p x = true := h x (by simp)
    simp only [List.cons_append, List.takeWhile_cons, hx, if_true]
    rw [ih (fun y hy => h y (by simp [hy]))]

theorem dropWhile_append_of_all {p : Char → Bool} {xs ys : List Char}
    (h : ∀ x ∈ xs, p x = true) : (xs ++ ys).dropWhile p = ys.dropWhile p := by
  induction xs with
  | nil => simp
  | cons x xs ih =>
    have hx : p x = true := h x (by simp)
    simp only [List.cons_append, List.dropWhile_cons, hx, if_true]
    exact ih (fun y hy => h y (by simp [hy]))

theorem splitOnP_ne_nil (p : Char → Bool) (l : List Char) : splitOnP p l ≠ [] := by
  cases l with
  | nil => simp [splitOnP]
  | cons c rest =>
    simp only [splitOnP]
    cases h : splitOnP p rest with
    | nil => simp
    | cons s ss =>
      by_cases hp : p c = true <;> simp [hp]

theorem splitOnP_headD (p : Char → Bool) (l : List Char) :
    (splitOnP p l).headD [] = l.takeWhile (fun c => !(p c)) := by
  induction l with
  | nil => simp [splitOnP]
  | cons c rest ih =>
    simp only [splitOnP]
    cases h : splitOnP p rest with
    | nil => exact absurd h (splitOnP_ne_nil p rest)
    | cons s ss =>
      rw [h] at ih
      by_cases hp : p c = true
      · simp [hp, List.takeWhile_cons]
      · simp only [Bool.not_eq_true] at hp
        simp [hp, List.takeWhile_cons]
        simpa using ih

theorem splitOnP_get_one (p : Char → Bool) (l : List Char) :
    (splitOnP p l).get? 1 =
      if l.any p then
        some (((l.dropWhile (fun c => !(p c))).drop 1).takeWhile (fun c => !(p c)))
      else Option.none := by
  induction l with
  | nil => simp [splitOnP]
  | cons c rest ih =>
    simp only [splitOnP]
    cases h : splitOnP p rest with
    | nil => exact absurd h (splitOnP_ne_nil p rest)
    | cons s ss =>
      by_cases hp : p c = true
      · have hs := splitOnP_headD p rest
        rw [h] at hs
        simp only [List.headD_cons] at hs
        simp [hp, List.any_cons, List.dropWhile_cons, hs]
      · simp only [Bool.not_eq_true] at hp
        rw [h] at ih
        simp only [hp, List.any_cons, Bool.false_or, List.dropWhile_cons, Bool.not_false,
          if_true, List.get?_cons_succ] at ih ⊢
        simpa using ih

theorem headMatches_append {pat l : List Char} (m : List Char)
    (h : headMatches pat l = true) : headMatches pat (l ++ m) = true := by
  induction pat generalizing l with
  | nil => rfl
  | cons a as ih =>
    cases l with
    | nil => simp [headMatches] at h
    | cons b bs =>
      simp only [headMatches, Bool.and_eq_true] at h
      simp only [List.cons_append, headMatches, Bool.and_eq_true]
      exact ⟨h.1, ih h.2⟩

theorem headMatches_dash_shape {l : List Char}
    (h : headMatches "---".data l = true) : ∃ t, l = '-' :: '-' :: '-' :: t := by
  have hd : "---".data = ['-', '-', '-'] := rfl
  rw [hd] at h
  cases l with
  | nil => simp [headMatches] at h
  | cons c1 r1 =>
    cases r1 with
    | nil => simp [headMatches] at h
    | cons c2 r2 =>
      cases r2 with
      | nil => simp [headMatches] at h
      | cons c3 r3 =>
        simp only [headMatches, Bool.and_eq_true, beq_iff_eq, Bool.and_true, and_true] at h
        exact ⟨r3, by rw [← h.1, ← h.2.1, ← h.2.2]⟩

theorem trim_of_all_ws {w : List Char} (h : ∀ c ∈ w, isJsWhitespace c = true) :
    trim w = [] := by
  unfold trim trimStart trimEnd
  have h1 : w.dropWhile isJsWhitespace = [] := List.dropWhile_eq_nil_iff.2 h
  rw [h1]
  rfl

/-- C7: if every rule flag in the configuration is false, the pipeline
returns its input unchanged, for every content string and file name. -/
theorem pipeline_identity_when_all_flags_off (s : VaultLinterSettings)
    (today content fileName : List Char)
    (h1 : s.enforceFrontmatter = false) (h2 : s.normalizeFormatting = false)
    (h3 : s.endWithNewline = false) (h4 : s.removeMultipleBlankLines = false)
    (h5 : s.enforceTagRules = false) (h6 : s.safeWikilinkInsertion = false) :
    NormalizationPipeline.normalize s today content fileName = content := by
  unfold NormalizationPipeline.normalize
  rw [FrontmatterEnforcer.enforce, FormattingNormalizer.normalize, TagRules.enforce,
    WikilinkInserter.normalize]
  simp [h1, h2, h5, h6]

/-- Witness for C7 at a concrete configuration and content string. -/
theorem pipeline_identity_when_all_flags_off_witness :
    settingsAllOff.enforceFrontmatter = false ∧
    NormalizationPipeline.normalize settingsAllOff "2025-06-01".data
      "x\r\n\n\n #A [[B|C]] ".data "f.md".data = "x\r\n\n\n #A [[B|C]] ".data :=
  ⟨rfl, pipeline_identity_when_all_flags_off settingsAllOff _ _ _
    rfl rfl rfl rfl rfl rfl⟩

/-- C2 (code bug): the camelCase tag transform is not a fixed point of
itself: on the tag `my-tag` one application yields `myTag`, and a second
application yields `mytag`. -/
theorem normalizeTag_camelCase_not_idempotent :
    TagRules.normalizeTag settingsCamel "my-tag".data = "myTag".data ∧
    TagRules.normalizeTag settingsCamel
        (TagRules.normalizeTag settingsCamel "my-tag".data) = "mytag".data ∧
    TagRules.normalizeTag settingsCamel
        (TagRules.normalizeTag settingsCamel "my-tag".data) ≠
      TagRules.normalizeTag settingsCamel "my-tag".data := by
  refine ⟨by decide, by decide, by decide⟩

/-- C3 (code bug): `normalizeLineEndings` is not idempotent — on `"\r\r\n"`
one pass yields `"\r\n"` and a second pass yields `"\n"` — and the composed
formatting `normalize` (all three formatting flags on) is not idempotent on
`"a\r\r\nb"` either. -/
theorem formatting_not_idempotent :
    FormattingNormalizer.normalizeLineEndings
        (FormattingNormalizer.normalizeLineEndings "\r\r\n".data) ≠
      FormattingNormalizer.normalizeLineEndings "\r\r\n".data ∧
    FormattingNormalizer.normalize settingsFormatOnly
        (FormattingNormalizer.normalize settingsFormatOnly "a\r\r\nb".data) ≠
      FormattingNormalizer.normalize settingsFormatOnly "a\r\r\nb".data := by
  refine ⟨by decide, by decide⟩

/-- C1 (code bug): the composed pipeline is not idempotent for every
configuration and content: with only the formatting rules on, the content
`"a\r\r\nb"` normalizes to `"a\r\nb\n"`, which normalizes again to
`"a\nb\n"`. -/
theorem pipeline_not_idempotent :
    NormalizationPipeline.normalize settingsFormatOnly "2025-06-01".data
        "a\r\r\nb".data "f.md".data = "a\r\nb\n".data ∧
    NormalizationPipeline.normalize settingsFormatOnly "2025-06-01".data
        (NormalizationPipeline.normalize settingsFormatOnly "2025-06-01".data
          "a\r\r\nb".data "f.md".data) "f.md".data = "a\nb\n".data ∧
    NormalizationPipeline.normalize settingsFormatOnly "2025-06-01".data
        (NormalizationPipeline.normalize settingsFormatOnly "2025-06-01".data
          "a\r\r\nb".data "f.md".data) "f.md".data ≠
      NormalizationPipeline.normalize settingsFormatOnly "2025-06-01".data
        "a\r\r\nb".data "f.md".data := by
  refine ⟨by decide, by decide, by decide⟩

theorem ensure_head_dash (f3 : List Char) :
    ∃ t, (if !headMatches "---".data f3 then "---\n".data ++ f3 else f3) =
      '-' :: '-' :: '-' :: t := by
  cases h : headMatches "---".data f3 with
  | false => exact ⟨'\n' :: f3, rfl⟩
  | true =>
    obtain ⟨t, ht⟩ := headMatches_dash_shape h
    exact ⟨t, ht⟩

theorem ensure_tail_keeps_dash {x : List Char} (y : List Char) {t : List Char}
    (hx : x = '-' :: '-' :: '-' :: t) (b : Bool) :
    ∃ t2, (if b then x ++ y else x) = '-' :: '-' :: '-' :: t2 := by
  cases b with
  | false => exact ⟨t, hx⟩
  | true => exact ⟨t ++ y, by rw [hx]; rfl⟩

theorem generateFrontmatter_starts_dash (s : VaultLinterSettings)
    (today fileName : List Char) (hflag : s.enforceFrontmatter = true) :
    ∃ t, FrontmatterEnforcer.generateFrontmatter s today fileName =
      '-' :: '-' :: '-' :: t := by
  unfold FrontmatterEnforcer.generateFrontmatter
  rw [hflag]
  simp only [Bool.not_true, Bool.false_eq_true, if_false]
  obtain ⟨t, ht⟩ := ensure_head_dash (FrontmatterEnforcer.substitutedTemplate s today fileName)
  exact ensure_tail_keeps_dash _ ht _

theorem frontmatter_enforce_skip (s : VaultLinterSettings)
    (today content fileName : List Char)
    (h : s.enforceFrontmatter = false ∨ FrontmatterEnforcer.hasFrontmatter content = true) :
    FrontmatterEnforcer.enforce s today content fileName = content := by
  unfold FrontmatterEnforcer.enforce
  rcases h with h | h
  · simp [h]
  · cases hf : s.enforceFrontmatter with
    | false => simp [hf]
    | true => simp [hf, h]

/-- C6: when enforcement is on and the content has no frontmatter, the
enforced result has frontmatter, equals the generated header followed by a
blank line followed by the content, and keeps the content as a suffix. -/
theorem frontmatter_insertion_on_absence (s : VaultLinterSettings)
    (today content fileName : List Char) (hflag : s.enforceFrontmatter = true)
    (habs : FrontmatterEnforcer.hasFrontmatter content = false) :
    FrontmatterEnforcer.hasFrontmatter
        (FrontmatterEnforcer.enforce s today content fileName) = true ∧
    FrontmatterEnforcer.enforce s today content fileName =
      FrontmatterEnforcer.generateFrontmatter s today fileName ++ '\n' :: '\n' :: content ∧
    ∃ pre, FrontmatterEnforcer.enforce s today content fileName = pre ++ content := by
  have henf : FrontmatterEnforcer.enforce s today content fileName =
      FrontmatterEnforcer.generateFrontmatter s today fileName ++ '\n' :: '\n' :: content := by
    unfold FrontmatterEnforcer.enforce
    rw [hflag, habs]
    simp
  refine ⟨?_, henf,
    ⟨FrontmatterEnforcer.generateFrontmatter s today fileName ++ ['\n', '\n'],
      by rw [henf]; simp⟩⟩
  rw [henf]
  obtain ⟨t, ht⟩ := generateFrontmatter_starts_dash s today fileName hflag
  rw [ht]
  unfold FrontmatterEnforcer.hasFrontmatter trimStart
  have hws : isJsWhitespace '-' = false := by decide
  have hd : "---".data = ['-', '-', '-'] := rfl
  simp [List.dropWhile_cons, hws, hd, headMatches]

/-- Witness for C6 at a concrete configuration, content and file name. -/
theorem frontmatter_insertion_on_absence_witness :
    settingsFm.enforceFrontmatter = true ∧
    FrontmatterEnforcer.hasFrontmatter "body".data = false ∧
    (FrontmatterEnforcer.hasFrontmatter
        (FrontmatterEnforcer.enforce settingsFm "2025-06-01".data "body".data
          "My Note.md".data) = true ∧
      FrontmatterEnforcer.enforce settingsFm "2025-06-01".data "body".data
          "My Note.md".data =
        FrontmatterEnforcer.generateFrontmatter settingsFm "2025-06-01".data
            "My Note.md".data ++ '\n' :: '\n' :: "body".data ∧
      ∃ pre, FrontmatterEnforcer.enforce settingsFm "2025-06-01".data "body".data
          "My Note.md".data = pre ++ "body".data) :=
  ⟨rfl, by decide,
    frontmatter_insertion_on_absence settingsFm _ _ _ rfl (by decide)⟩

/-- C4 (counterexample): a content string opening with `---` but with no
closing delimiter is still reported as having frontmatter, and `enforce`
leaves it unchanged — no second header is prepended, contrary to the claim. -/
theorem unterminated_frontmatter_counterexample :
    FrontmatterEnforcer.hasFrontmatter "---\nabc".data = true ∧
    FrontmatterEnforcer.extractFrontmatter "---\nabc".data = Option.none ∧
    FrontmatterEnforcer.enforce settingsFm "2025-06-01".data "---\nabc".data
        "f.md".data = "---\nabc".data := by
  refine ⟨by decide, by decide, by decide⟩

/-- C4 (amended): for content whose stripped form starts with `---`,
`hasFrontmatter` is true — regardless of any closing delimiter — so
`enforce` returns the content unchanged; and when the closing delimiter is
really absent, `extractFrontmatter` returns no match. -/
theorem unterminated_frontmatter_amended (s : VaultLinterSettings)
    (today content fileName : List Char)
    (h : FrontmatterEnforcer.hasFrontmatter content = true) :
    FrontmatterEnforcer.enforce s today content fileName = content ∧
    (indexOfSub "\n---".data ((trimStart content).drop 3) = Option.none →
      FrontmatterEnforcer.extractFrontmatter content = Option.none) := by
  constructor
  · exact frontmatter_enforce_skip s today content fileName (Or.inr h)
  · intro hidx
    have hh : headMatches "---".data (trimStart content) = true := h
    simp [FrontmatterEnforcer.extractFrontmatter, hh, hidx]

/-- Witness for the amended C4 at the concrete unterminated content. -/
theorem unterminated_frontmatter_amended_witness :
    FrontmatterEnforcer.hasFrontmatter "---\nabc".data = true ∧
    (FrontmatterEnforcer.enforce settingsFm "2025-06-01".data "---\nabc".data
        "f.md".data = "---\nabc".data ∧
      (indexOfSub "\n---".data ((trimStart "---\nabc".data).drop 3) = Option.none →
        FrontmatterEnforcer.extractFrontmatter "---\nabc".data = Option.none)) :=
  ⟨by decide, unterminated_frontmatter_amended settingsFm _ _ _ (by decide)⟩

/-- C8 (counterexample): with frontmatter enforcement on and a template
holding a date placeholder, two invocations of the pipeline on the same
content and file name but across a date change give different outputs. -/
theorem pipeline_date_dependent_counterexample :
    NormalizationPipeline.normalize settingsFmDate "2025-01-01".data "x".data
        "f.md".data ≠
      NormalizationPipeline.normalize settingsFmDate "2025-01-02".data "x".data
        "f.md".data := by
  decide

/-- C8 (amended): the pipeline is a pure function of configuration, current
date, content and file name; whenever frontmatter insertion cannot fire
(the flag is off, or the content already has frontmatter) the output does
not depend on the date at all. -/
theorem pipeline_deterministic_amended (s : VaultLinterSettings)
    (content fileName d1 d2 : List Char)
    (h : s.enforceFrontmatter = false ∨
      FrontmatterEnforcer.hasFrontmatter content = true) :
    NormalizationPipeline.normalize s d1 content fileName =
      NormalizationPipeline.normalize s d2 content fileName := by
  unfold NormalizationPipeline.normalize
  rw [frontmatter_enforce_skip s d1 content fileName h,
    frontmatter_enforce_skip s d2 content fileName h]

/-- Witness for the amended C8 at a concrete configuration and content. -/
theorem pipeline_deterministic_amended_witness :
    (settingsAllOff.enforceFrontmatter = false ∨
      FrontmatterEnforcer.hasFrontmatter "x".data = true) ∧
    NormalizationPipeline.normalize settingsAllOff "2025-01-01".data "x".data
        "f.md".data =
      NormalizationPipeline.normalize settingsAllOff "2025-01-02".data "x".data
        "f.md".data :=
  ⟨Or.inl rfl,
    pipeline_deterministic_amended settingsAllOff _ _ _ _ (Or.inl rfl)⟩

/-- C9: when more than twenty documents are unchanged, the rendered vault
report is exactly the report without the unchanged-paths listing — the flat
list of unchanged paths is not rendered. -/
theorem vault_report_unchanged_gate (ts : List Char) (reports : List ChangeReport)
    (h : 20 < (unchangedReports reports).length) :
    formatVaultReportAsMarkdown ts reports =
      vaultReportWithoutUnchangedList ts reports := by
  unfold formatVaultReportAsMarkdown vaultReportWithoutUnchangedList
  rw [if_neg (by omega :
    ¬(0 < (unchangedReports reports).length ∧ (unchangedReports reports).length ≤ 20))]
  rw [List.append_nil]

/-- Witness for C9 at a batch of twenty-one unchanged reports. -/
theorem vault_report_unchanged_gate_witness :
    20 < (unchangedReports manyUnchanged).length ∧
    formatVaultReportAsMarkdown [] manyUnchanged =
      vaultReportWithoutUnchangedList [] manyUnchanged :=
  ⟨by decide, vault_report_unchanged_gate [] manyUnchanged (by decide)⟩

/-- C5 (counterexample): on the inner text `A|B|C` the claim predicts the
alias `B|C` (everything after the first pipe) and hence the result `A|B|C`;
the code instead keeps only the part between the first and the second pipe,
producing `A|B`. -/
theorem wikilink_alias_counterexample :
    WikilinkInserter.normalizeWikilinkPath settingsWiki "A|B|C".data = "A|B".data ∧
    WikilinkInserter.normalizeWikilinkPath settingsWiki "A|B|C".data ≠ "A|B|C".data := by
  refine ⟨by decide, by decide⟩

/-- C5 (amended): with safe insertion on, `normalizeWikilinkPath` agrees
with the spec-side description: trimmed text before the first pipe as link
path, trimmed text between the first and second pipe as alias (anything
after a second pipe dropped), the configured style applied to the link path
alone, and a `|alias` part kept only for a present, nonempty alias. -/
theorem normalizeWikilinkPath_amended (s : VaultLinterSettings) (path : List Char)
    (hs : s.safeWikilinkInsertion = true) :
    WikilinkInserter.normalizeWikilinkPath s path =
      normalizeWikilinkPathSpec s.wikilinkStyle path := by
  unfold WikilinkInserter.normalizeWikilinkPath normalizeWikilinkPathSpec wikilinkShortestSpec
  simp only [hs, Bool.not_true, Bool.false_eq_true, if_false]
  rw [splitOnP_headD, splitOnP_get_one]
  cases hany : path.any (fun c => c == '|') with
  | false =>
    simp only [hany, Bool.false_eq_true, if_false, Option.map_none']
    cases s.wikilinkStyle <;> simp
  | true =>
    simp only [hany, if_true, Option.map_some']
    cases he : (trim (((path.dropWhile (fun c => !(c == '|'))).drop 1).takeWhile
        (fun c => !(c == '|')))).isEmpty with
    | true => cases s.wikilinkStyle <;> simp [he]
    | false => cases s.wikilinkStyle <;> simp [he]

/-- Witness for the amended C5 at a concrete configuration and inner text. -/
theorem normalizeWikilinkPath_amended_witness :
    settingsWiki.safeWikilinkInsertion = true ∧
    WikilinkInserter.normalizeWikilinkPath settingsWiki "Folder/Sub/Page.md|Alias".data =
      normalizeWikilinkPathSpec settingsWiki.wikilinkStyle "Folder/Sub/Page.md|Alias".data :=
  ⟨rfl, normalizeWikilinkPath_amended settingsWiki _ rfl⟩

theorem list_any_eq_false_of {p : Char → Bool} {l : List Char}
    (h : ∀ c ∈ l, p c = false) : l.any p = false := by
  induction l with
  | nil => rfl
  | cons c rest ih =>
    simp only [List.any_cons, Bool.or_eq_false_iff]
    exact ⟨h c (by simp), ih (fun x hx => h x (by simp [hx]))⟩

/-- C10: an empty alias (a pipe followed by only whitespace) is dropped
entirely: the path normalizer gives the same result as with no pipe at all,
and the content-level normalizer turns the wikilink into the alias-free
form. -/
theorem wikilink_empty_alias_dropped (s : VaultLinterSettings) (page w : List Char)
    (hs : s.safeWikilinkInsertion = true) (hne : page ≠ [])
    (hp : '|' ∉ page) (hb : ']' ∉ page)
    (hw : ∀ c ∈ w, isJsWhitespace c = true) :
    WikilinkInserter.normalizeWikilinkPath s (page ++ '|' :: w) =
      WikilinkInserter.normalizeWikilinkPath s page ∧
    WikilinkInserter.normalize s ('[' :: '[' :: (page ++ '|' :: w) ++ [']', ']']) =
      '[' :: '[' :: (WikilinkInserter.normalizeWikilinkPath s page ++ [']', ']']) := by
  have hpB : ∀ c ∈ page, (c == '|') = false := by
    intro c hc
    rw [beq_eq_false_iff_ne]
    rintro rfl
    exact hp hc
  have hbB : ∀ c ∈ page, (c == ']') = false := by
    intro c hc
    rw [beq_eq_false_iff_ne]
    rintro rfl
    exact hb hc
  have hwPipe : ∀ c ∈ w, (c == '|') = false := by
    intro c hc
    rw [beq_eq_false_iff_ne]
    rintro rfl
    exact absurd (hw '|' hc) (by decide)
  have hwBr : ∀ c ∈ w, (c == ']') = false := by
    intro c hc
    rw [beq_eq_false_iff_ne]
    rintro rfl
    exact absurd (hw ']' hc) (by decide)
  have htw : (page ++ '|' :: w).takeWhile (fun c => !(c == '|')) = page := by
    rw [takeWhile_append_of_all (fun x hx => by rw [hpB x hx]; rfl)]
    simp [List.takeWhile_cons]
  have hdw : (page ++ '|' :: w).dropWhile (fun c => !(c == '|')) = '|' :: w := by
    rw [dropWhile_append_of_all (fun x hx => by rw [hpB x hx]; rfl)]
    simp [List.dropWhile_cons]
  have htwp : page.takeWhile (fun c => !(c == '|')) = page :=
    List.takeWhile_eq_self_iff.2 (fun x hx => by rw [hpB x hx]; rfl)
  have htww : w.takeWhile (fun c => !(c == '|')) = w :=
    List.takeWhile_eq_self_iff.2 (fun x hx => by rw [hwPipe x hx]; rfl)
  have hany1 : (page ++ '|' :: w).any (fun c => c == '|') = true := by
    simp [List.any_append, List.any_cons]
  have hany2 : page.any (fun c => c == '|') = false := list_any_eq_false_of hpB
  have hpart1 : WikilinkInserter.normalizeWikilinkPath s (page ++ '|' :: w) =
      WikilinkInserter.normalizeWikilinkPath s page := by
    unfold WikilinkInserter.normalizeWikilinkPath
    simp only [hs, Bool.not_true, Bool.false_eq_true, if_false, splitOnP_headD,
      splitOnP_get_one, htw, hdw, htwp, hany1, hany2, if_true,
      List.drop_succ_cons, List.drop_zero, htww, Option.map_some', Option.map_none']
    rw [trim_of_all_ws hw]
    simp
  refine ⟨hpart1, ?_⟩
  have hinner : ((page ++ '|' :: w) ++ [']', ']']).takeWhile (fun c => !(c == ']')) =
      page ++ '|' :: w := by
    rw [takeWhile_append_of_all]
    · simp [List.takeWhile_cons]
    · intro x hx
      rcases List.mem_append.1 hx with hx | hx
      · rw [hbB x hx]; rfl
      · rcases List.mem_cons.1 hx with rfl | hx
        · rfl
        · rw [hwBr x hx]; rfl
  have hafter : ((page ++ '|' :: w) ++ [']', ']']).dropWhile (fun c => !(c == ']')) =
      [']', ']'] := by
    rw [dropWhile_append_of_all]
    · rfl
    · intro x hx
      rcases List.mem_append.1 hx with hx | hx
      · rw [hbB x hx]; rfl
      · rcases List.mem_cons.1 hx with rfl | hx
        · rfl
        · rw [hwBr x hx]; rfl
  have hinnerNe : (page ++ '|' :: w).isEmpty = false := by
    obtain ⟨a, as, rfl⟩ := List.exists_cons_of_ne_nil hne
    rfl
  unfold WikilinkInserter.normalize
  simp only [hs, Bool.not_true, Bool.false_eq_true, if_false, List.cons_append]
  rw [show ('[' :: '[' :: ((page ++ '|' :: w) ++ [']', ']'])).length =
      Nat.succ (((page ++ '|' :: w) ++ [']', ']']).length + 1) from rfl]
  rw [WikilinkInserter.wikiGo.eq_3]
  simp only [hinner, hafter, hinnerNe, Bool.false_eq_true, if_false]
  rw [hpart1]
  simp [WikilinkInserter.wikiGo]

/-- Witness for C10 at a concrete configuration, page and whitespace alias. -/
theorem wikilink_empty_alias_dropped_witness :
    settingsWiki.safeWikilinkInsertion = true ∧ "Page".data ≠ [] ∧
    '|' ∉ "Page".data ∧ ']' ∉ "Page".data ∧
    (∀ c ∈ [' '], isJsWhitespace c = true) ∧
    (WikilinkInserter.normalizeWikilinkPath settingsWiki ("Page".data ++ '|' :: [' ']) =
        WikilinkInserter.normalizeWikilinkPath settingsWiki "Page".data ∧
      WikilinkInserter.normalize settingsWiki
          ('[' :: '[' :: ("Page".data ++ '|' :: [' ']) ++ [']', ']']) =
        '[' :: '[' :: (WikilinkInserter.normalizeWikilinkPath settingsWiki "Page".data ++
          [']', ']'])) :=
  ⟨rfl, by decide, by decide, by decide, by decide,
    wikilink_empty_alias_dropped settingsWiki "Page".data [' '] rfl (by decide)
      (by decide) (by decide) (by decide)⟩
